import Mathlib

/-!
Shallow embedding of the session-manager core of `dev-manager-desktop`
(`src-tauri/src/session_manager/shell.rs`) and of the local-file plugin
(`src-tauri/src/plugins/local_file.rs`), with theorems checking the
natural-language specification against the code.

Conventions of the embedding:
* Rust byte slices are `List Nat` (each entry one byte).
* Rust strings used for parsing are `List Char`.
* A Rust `panic` (an `unwrap()` that fails) is modelled as `Option.none`,
  or as the dedicated `RustResult.panicked` outcome for `Result`-returning
  functions that can also return errors.
* The terminal emulator (the external `vt100` crate) is abstract: a state
  type `σ` together with a record `EmuOps σ` of the operations the actor
  uses (`process`, `title`, `rows_formatted`, `cursor_position`).
-/

namespace DevManager

/-- Error taxonomy of the crate (`Error::disconnected()`, `Error::Unsupported`,
IO errors propagated by `?`, transport errors propagated from russh). -/
inductive Error where
  | disconnected
  | Unsupported
  | io (msg : String)
  | transport (msg : String)
deriving DecidableEq, Repr

/-! ## Splitting, mirroring Rust `str::split` on a single separator char

Rust semantics: `"".split(sep)` yields `[""]`, `"a/".split('/')` yields
`["a", ""]`; every occurrence of the separator starts a new segment. -/

/-- Rust `str::split(sep)` collected to a list of segments. -/
def splitSep (sep : Char) : List Char → List (List Char)
  | [] => [[]]
  | c :: cs =>
    if c = sep then [] :: splitSep sep cs
    else
      match splitSep sep cs with
      | [] => [[c]]
      | s :: ss => (c :: s) :: ss

/-! ## Hex digits and the UUID model

`uuid::Uuid` displays as lowercase hyphenated hex, 8-4-4-4-12 digits, and
`Uuid::from_str` parses that format back (it accepts further formats —
braced, urn, simple — that can never be produced by `Display` and do not
occur in the inputs considered here).  A UUID value is modelled as its
128-bit numeric value, a `Nat` below `2^128`. -/

/-- Lowercase hex digit character for a value below 16. -/
def hexDigitChar (d : Nat) : Char :=
  if d < 10 then Char.ofNat (48 + d) else Char.ofNat (87 + d)

/-- Big-endian fixed-width hex rendering of `v % 16^w`. -/
def natToHexDigits : Nat → Nat → List Char
  | 0, _ => []
  | w + 1, v => natToHexDigits w (v / 16) ++ [hexDigitChar (v % 16)]

/-- Numeric value of a hex digit character (upper or lower case). -/
def hexDigitVal (c : Char) : Option Nat :=
  if 48 ≤ c.toNat ∧ c.toNat ≤ 57 then some (c.toNat - 48)
  else if 97 ≤ c.toNat ∧ c.toNat ≤ 102 then some (c.toNat - 87)
  else if 65 ≤ c.toNat ∧ c.toNat ≤ 70 then some (c.toNat - 55)
  else none

/-- Accumulator-style big-endian hex parse; fails on any non-hex char. -/
def parseHexAux : Nat → List Char → Option Nat
  | acc, [] => some acc
  | acc, c :: cs =>
    match hexDigitVal c with
    | some d => parseHexAux (acc * 16 + d) cs
    | none => none

/-- Parse a list of hex digit characters to its big-endian value. -/
def parseHexDigits (s : List Char) : Option Nat := parseHexAux 0 s

/-- Display form of `uuid::Uuid`: lowercase hyphenated hex, groups of
8-4-4-4-12 digits of the 128-bit value. -/
def uuidToChars (u : Nat) : List Char :=
  natToHexDigits 8 (u / 16 ^ 24) ++ '-' ::
    (natToHexDigits 4 (u / 16 ^ 20) ++ '-' ::
      (natToHexDigits 4 (u / 16 ^ 16) ++ '-' ::
        (natToHexDigits 4 (u / 16 ^ 12) ++ '-' :: natToHexDigits 12 u)))

/-- Model of `uuid::Uuid::from_str`, restricted to the hyphenated format
(the crate also accepts braced, urn and simple forms, which `Display`
never produces and which do not occur in the inputs considered here):
five hyphen-separated groups of 8, 4, 4, 4 and 12 hex digits. -/
def uuidFromChars (s : List Char) : Option Nat :=
  match splitSep '-' s with
  | [a, b, c, d, e] =>
    if a.length = 8 ∧ b.length = 4 ∧ c.length = 4 ∧ d.length = 4 ∧ e.length = 12 then
      match parseHexDigits a, parseHexDigits b, parseHexDigits c,
          parseHexDigits d, parseHexDigits e with
      | some va, some vb, some vc, some vd, some ve =>
        some ((((va * 16 ^ 4 + vb) * 16 ^ 4 + vc) * 16 ^ 4 + vd) * 16 ^ 12 + ve)
      | _, _, _, _, _ => none
    else none
  | _ => none

/-! ## Session identity (`ShellToken`)

`ShellToken { connection_id: Uuid, channel_id: String }`; `Serialize`
writes `format!("{}/{}", connection_id, channel_id)`, and `Deserialize`
goes through `ShellTokenVisitor::visit_str`. -/

/-- The session identity: a connection UUID (as its 128-bit value) plus an
opaque channel id. -/
structure ShellToken where
  connection_id : Nat
  channel_id : List Char
deriving DecidableEq, Repr

/-- ShellToken serialization: the canonical string
`"<connection_id>/<channel_id>"` as a character list. -/
def ShellToken.serialize (t : ShellToken) : List Char :=
  uuidToChars t.connection_id ++ '/' :: t.channel_id

/-- ShellTokenVisitor::visit_str: `value.split('/')`, take the first two
segments with `.unwrap()`, parse the first as a UUID with `.unwrap()`.
Both unwraps can fail; a failing unwrap aborts the thread, modelled as
`none`. -/
def visit_str (value : List Char) : Option ShellToken :=
  let split := splitSep '/' value
  match split.get? 0 with
  | none => none
  | some first =>
    match split.get? 1 with
    | none => none
    | some second =>
      match uuidFromChars first with
      | none => none
      | some cid => some ⟨cid, second⟩

/-! ## Terminal emulator adapter

The `vt100` crate is external; the actor only uses `process`, the screen
title, `rows_formatted` and `cursor_position`, so the emulator is a state
type `σ` with those operations.  `Screen::title_diff(&old)` returns the
bytes needed to retitle from `old` to the current screen and is empty
exactly when the two titles agree, so the actor's title-change test is
modelled as inequality of the titles before and after `process`. -/

/-- Operations of the vt100 parser used by the actor. -/
structure EmuOps (σ : Type) where
  process : σ → List Nat → σ
  title : σ → String
  rows_formatted : σ → Nat → List (List Nat)
  cursor_position : σ → Nat × Nat

/-- Sender half of the tokio unbounded channel.  `send` on it fails exactly
when the receiver has been dropped; the shell keeps the sender forever once
installed, so that flag is the only state that matters. -/
structure Sender where
  receiverDropped : Bool
deriving DecidableEq, Repr

/-- The russh channel handle, reduced to what `close` observes of it: the
result its `close()` call would produce (`none` = success). -/
structure Channel where
  closeResult : Option Error
deriving DecidableEq, Repr

/-- State of a `Shell` actor: the fields of the Rust struct, with the three
independently locked cells (`channel`, `sender`, `parser`) inlined as plain
fields since each operation touches them one at a time. -/
structure ShellModel (σ : Type) where
  token : ShellToken
  channel : Option Channel
  sender : Option Sender
  has_pty : Bool
  parser : σ
  def_title : String
  created_at : Nat
deriving DecidableEq, Repr

/-- Outcome of a Rust function returning `Result` that can also abort via a
failing `unwrap()`. -/
inductive RustResult (α : Type) where
  | ok (a : α)
  | err (e : Error)
  | panicked
deriving DecidableEq, Repr

/-- Shell::write: if a sender is installed, `sender.send(data).unwrap()` —
the `unwrap` aborts when the receiver side is gone; otherwise
`Err(Error::disconnected())`. -/
def Shell.write (sh : ShellModel σ) (data : List Nat) : RustResult Unit :=
  match sh.sender with
  | some sender => if sender.receiverDropped then .panicked else .ok ()
  | none => .err Error.disconnected

/-- Shell::close: take the channel out of its cell; if one was present,
call `close()` on it and propagate its result; otherwise succeed. -/
def Shell.close (sh : ShellModel σ) : ShellModel σ × Except Error Unit :=
  match sh.channel with
  | some ch =>
    ({ sh with channel := none },
      match ch.closeResult with
      | some e => .error e
      | none => .ok ())
  | none => (sh, .ok ())

/-- Rust `Iterator::rposition`: index of the last element satisfying the
predicate. -/
def rposition (p : α → Bool) : List α → Option Nat
  | [] => none
  | a :: as =>
    match rposition p as with
    | some i => some (i + 1)
    | none => if p a then some 0 else none

/-- The screen snapshot `ShellBuffer { rows, cursor }`. -/
structure ShellBuffer where
  rows : List (List Nat)
  cursor : Nat × Nat
deriving DecidableEq, Repr

/-- Row-trimming step of Shell::screen: keep everything up to the last
non-empty row (`rposition(|row| !row.is_empty())`), or nothing when every
row is empty. -/
def screenRows (rows : List (List Nat)) : List (List Nat) :=
  match rposition (fun row => !row.isEmpty) rows with
  | some idx => rows.take (idx + 1)
  | none => []

/-- Recursive characterization of trailing-empty-row trimming, used to
reason about `screenRows`. -/
def trimTrailingEmpty : List (List Nat) → List (List Nat)
  | [] => []
  | r :: rs =>
    match trimTrailingEmpty rs with
    | [] => if r.isEmpty then [] else [r]
    | s :: ss => r :: s :: ss

/-- Shell::screen: render the parser rows at width `cols`, trim trailing
empty rows, pair with the cursor position.  The `rows` parameter is
shadowed by the rendered rows in the source and never read; no failure
path exists (the channel is never consulted). -/
def Shell.screen (ops : EmuOps σ) (sh : ShellModel σ) (cols rows : Nat) :
    Except Error ShellBuffer :=
  .ok { rows := screenRows (ops.rows_formatted sh.parser cols),
        cursor := ops.cursor_position sh.parser }

/-- Shell::title: the parser title, falling back to `def_title` when it is
empty. -/
def Shell.title (ops : EmuOps σ) (sh : ShellModel σ) : String :=
  let t := ops.title sh.parser
  if t.isEmpty then sh.def_title else t

/-- Session metadata `ShellInfo`. -/
structure ShellInfo where
  token : ShellToken
  title : String
  has_pty : Bool
  created_at : Nat
deriving DecidableEq, Repr

/-- Shell::info: assemble the metadata snapshot. -/
def Shell.info (ops : EmuOps σ) (sh : ShellModel σ) : ShellInfo :=
  { token := sh.token
    title := Shell.title ops sh
    has_pty := sh.has_pty
    created_at := sh.created_at }

/-- Shell::process: without a pty do nothing and report no change; with a
pty feed the bytes to the parser and report whether the title changed
(`title_diff` against the pre-feed screen is non-empty). -/
def Shell.process (ops : EmuOps σ) (sh : ShellModel σ) (data : List Nat) :
    ShellModel σ × Bool :=
  if !sh.has_pty then (sh, false)
  else
    let old := sh.parser
    let fed := ops.process sh.parser data
    ({ sh with parser := fed }, decide (¬ ops.title fed = ops.title old))

/-- The russh channel messages consumed by the protocol loop, plus the
catch-all arm. -/
inductive ChannelMsg where
  | Data (data : List Nat)
  | ExtendedData (data : List Nat) (ext : Nat)
  | ExitStatus (exit_status : Nat)
  | Eof
  | Close
  | Other
deriving DecidableEq, Repr

/-- Observable calls made on the notification sink (`ShellCallback`). -/
inductive SinkEvent where
  | rx (fd : Nat) (data : List Nat)
  | info (i : ShellInfo)
deriving DecidableEq, Repr

/-- The two loop-local variables of Shell::run: `status` and `eof`. -/
structure LoopState where
  status : Option Nat
  eof : Bool
deriving DecidableEq, Repr

/-- One iteration of the inbound branch of the `select!` in Shell::run:
dispatch a channel message, returning the updated shell, the updated loop
state, the sink calls made, and whether the loop `break`s. -/
def Shell.handleMsg (ops : EmuOps σ) (sh : ShellModel σ) (st : LoopState) :
    ChannelMsg → ShellModel σ × LoopState × List SinkEvent × Bool
  | .Data data =>
    let pr := Shell.process ops sh data
    (pr.1, st,
      SinkEvent.rx 0 data ::
        (if pr.2 then [SinkEvent.info (Shell.info ops pr.1)] else []),
      false)
  | .ExtendedData data ext =>
    if ext = 1 then
      let pr := Shell.process ops sh data
      (pr.1, st, [SinkEvent.rx 1 data], false)
    else (sh, st, [], false)
  | .ExitStatus code =>
    (sh, { st with status := some code }, [], st.eof)
  | .Eof =>
    (sh, { st with eof := true }, [], st.status.isSome)
  | .Close => (sh, st, [], false)
  | .Other => (sh, st, [], false)

/-- Run the protocol loop over a sequence of inbound channel messages (no
outbound traffic), starting from a given loop state; the final component
records whether the loop terminated (hit a `break`) before exhausting the
input. -/
def Shell.runMsgs (ops : EmuOps σ) :
    ShellModel σ → LoopState → List ChannelMsg →
      ShellModel σ × LoopState × List SinkEvent × Bool
  | sh, st, [] => (sh, st, [], false)
  | sh, st, m :: ms =>
    let r := Shell.handleMsg ops sh st m
    if r.2.2.2 then (r.1, r.2.1, r.2.2.1, true)
    else
      let rest := Shell.runMsgs ops r.1 r.2.1 ms
      (rest.1, rest.2.1, r.2.2.1 ++ rest.2.2.1, rest.2.2.2)

/-! ## Local-file plugin (`plugins/local_file.rs`)

`checksum` opens and fully reads the file first (IO errors propagate via
`?`), then matches on the algorithm name: `"sha256"` hex-digests the
contents, anything else is `Error::Unsupported`.  The SHA-256 compression
itself lives in the external `sha256` crate; its digest function is
modelled as an opaque byte-level hash `core` whose output the crate
renders as lowercase hex. -/

/-- Digest rendering of the sha256 crate: each output byte as two lowercase
hex characters. -/
def sha256digest (core : List Nat → List Nat) (contents : List Nat) : List Char :=
  ((core contents).map
    (fun b => [hexDigitChar (b / 16 % 16), hexDigitChar (b % 16)])).flatten

/-- The `checksum` command.  `fileRead` is the outcome of
`File::open(&path)` followed by `read_to_end` (performed before the
algorithm is examined). -/
def checksum (core : List Nat → List Nat) (fileRead : Except Error (List Nat))
    (algorithm : String) : Except Error (List Char) :=
  match fileRead with
  | .error e => .error e
  | .ok contents =>
    match algorithm with
    | "sha256" => .ok (sha256digest core contents)
    | _ => .error Error.Unsupported

/-! ## Supporting lemmas -/

theorem splitSep_ne_nil (sep : Char) (l : List Char) : splitSep sep l ≠ [] := by
  cases l with
  | nil => simp [splitSep]
  | cons c cs =>
    simp only [splitSep]
    split
    · simp
    · split <;> simp

/-- Splitting a separator-free list yields the single segment. -/
theorem splitSep_eq_single (sep : Char) (l : List Char) (h : sep ∉ l) :
    splitSep sep l = [l] := by
  induction l with
  | nil => rfl
  | cons c cs ih =>
    simp only [List.mem_cons, not_or] at h
    simp only [splitSep]
    rw [if_neg (fun hc => h.1 hc.symm), ih h.2]

/-- Splitting `a ++ sep :: rest` where `a` is separator-free peels off `a`. -/
theorem splitSep_append (sep : Char) (a rest : List Char) (h : sep ∉ a) :
    splitSep sep (a ++ sep :: rest) = a :: splitSep sep rest := by
  induction a with
  | nil => simp [splitSep]
  | cons c cs ih =>
    simp only [List.mem_cons, not_or] at h
    simp only [List.cons_append, splitSep]
    rw [if_neg (fun hc => h.1 hc.symm)]
    rw [List.append_eq, ih h.2]

theorem hexDigitVal_hexDigitChar : ∀ d < 16, hexDigitVal (hexDigitChar d) = some d := by
  decide

theorem natToHexDigits_length (w v : Nat) : (natToHexDigits w v).length = w := by
  induction w generalizing v with
  | zero => rfl
  | succ w ih => simp [natToHexDigits, ih]

theorem hexDigitChar_mem_range (d : Nat) (hd : d < 16) :
    hexDigitChar d ≠ '-' ∧ hexDigitChar d ≠ '/' := by
  revert d hd; decide

theorem parseHexAux_append (acc : Nat) (xs ys : List Char) :
    parseHexAux acc (xs ++ ys) =
      match parseHexAux acc xs with
      | some a => parseHexAux a ys
      | none => none := by
  induction xs generalizing acc with
  | nil => simp [parseHexAux]
  | cons c cs ih =>
    simp only [List.cons_append, parseHexAux]
    cases hexDigitVal c with
    | some d => exact ih _
    | none => rfl

theorem parseHexAux_natToHexDigits (w : Nat) :
    ∀ acc v, parseHexAux acc (natToHexDigits w v) = some (acc * 16 ^ w + v % 16 ^ w) := by
  induction w with
  | zero => intro acc v; simp [natToHexDigits, parseHexAux, Nat.mod_one]
  | succ w ih =>
    intro acc v
    have hmem : v % 16 < 16 := Nat.mod_lt _ (by norm_num)
    simp only [natToHexDigits]
    rw [parseHexAux_append, ih acc (v / 16)]
    simp only [parseHexAux, hexDigitVal_hexDigitChar _ hmem]
    congr 1
    have ha : v / 16 % 16 ^ w < 16 ^ w :=
      Nat.mod_lt _ (Nat.pos_pow_of_pos _ (by norm_num))
    have hr : v % 16 < 16 := Nat.mod_lt _ (by norm_num)
    have hlt : v / 16 % 16 ^ w * 16 + v % 16 < 16 ^ (w + 1) := by
      calc v / 16 % 16 ^ w * 16 + v % 16
          < (v / 16 % 16 ^ w + 1) * 16 := by omega
        _ ≤ 16 ^ w * 16 := Nat.mul_le_mul_right 16 (by omega)
        _ = 16 ^ (w + 1) := (pow_succ 16 w).symm
    have hE : v = 16 ^ (w + 1) * (v / 16 / 16 ^ w) + (v / 16 % 16 ^ w * 16 + v % 16) := by
      have h1 : 16 ^ w * (v / 16 / 16 ^ w) + v / 16 % 16 ^ w = v / 16 := Nat.div_add_mod _ _
      have h2 : 16 * (v / 16) + v % 16 = v := Nat.div_add_mod _ _
      calc v = 16 * (v / 16) + v % 16 := h2.symm
        _ = 16 * (16 ^ w * (v / 16 / 16 ^ w) + v / 16 % 16 ^ w) + v % 16 := by rw [h1]
        _ = 16 ^ (w + 1) * (v / 16 / 16 ^ w) + (v / 16 % 16 ^ w * 16 + v % 16) := by
              rw [pow_succ]; ring
    have hmod : v % 16 ^ (w + 1) = v / 16 % 16 ^ w * 16 + v % 16 := by
      conv_lhs => rw [hE]
      rw [Nat.mul_add_mod, Nat.mod_eq_of_lt hlt]
    rw [hmod]; ring

theorem parseHexDigits_natToHexDigits (w v : Nat) :
    parseHexDigits (natToHexDigits w v) = some (v % 16 ^ w) := by
  rw [parseHexDigits, parseHexAux_natToHexDigits]
  simp

/-- Every character of a fixed-width hex rendering is a hex digit character. -/
theorem mem_natToHexDigits (w v : Nat) (c : Char) (hc : c ∈ natToHexDigits w v) :
    ∃ d, d < 16 ∧ c = hexDigitChar d := by
  induction w generalizing v with
  | zero => simp [natToHexDigits] at hc
  | succ w ih =>
    simp only [natToHexDigits, List.mem_append, List.mem_singleton] at hc
    rcases hc with hc | hc
    · exact ih _ hc
    · exact ⟨v % 16, Nat.mod_lt _ (by norm_num), hc⟩

theorem uuidToChars_no_sep (u : Nat) (c : Char) (hc : c ∈ uuidToChars u) :
    c ≠ '/' := by
  simp only [uuidToChars, List.mem_append, List.mem_cons] at hc
  have hhex : ∀ w v, c ∈ natToHexDigits w v → c ≠ '/' := by
    intro w v hm
    obtain ⟨d, hd, rfl⟩ := mem_natToHexDigits w v c hm
    exact (hexDigitChar_mem_range d hd).2
  rcases hc with h | h | h | h | h | h | h | h | h
  · exact hhex _ _ h
  · rw [h]; decide
  · exact hhex _ _ h
  · rw [h]; decide
  · exact hhex _ _ h
  · rw [h]; decide
  · exact hhex _ _ h
  · rw [h]; decide
  · exact hhex _ _ h

/-- Parsing the display form of a 128-bit value returns exactly that value. -/
theorem uuidFromChars_uuidToChars (u : Nat) (hu : u < 2 ^ 128) :
    uuidFromChars (uuidToChars u) = some u := by
  have hhexne : ∀ w v, '-' ∉ natToHexDigits w v := by
    intro w v hm
    obtain ⟨d, hd, he⟩ := mem_natToHexDigits w v '-' hm
    exact (hexDigitChar_mem_range d hd).1 he.symm
  have hsplit : splitSep '-' (uuidToChars u) =
      [natToHexDigits 8 (u / 16 ^ 24), natToHexDigits 4 (u / 16 ^ 20),
        natToHexDigits 4 (u / 16 ^ 16), natToHexDigits 4 (u / 16 ^ 12),
        natToHexDigits 12 u] := by
    rw [uuidToChars, splitSep_append _ _ _ (hhexne _ _),
      splitSep_append _ _ _ (hhexne _ _), splitSep_append _ _ _ (hhexne _ _),
      splitSep_append _ _ _ (hhexne _ _), splitSep_eq_single _ _ (hhexne _ _)]
  rw [uuidFromChars, hsplit]
  simp only [natToHexDigits_length, and_self, if_pos, parseHexDigits_natToHexDigits]
  have h128 : u < 16 ^ 32 := by norm_num at hu ⊢; omega
  have e4 : (16 : Nat) ^ 4 = 65536 := by norm_num
  have e12 : (16 : Nat) ^ 12 = 281474976710656 := by norm_num
  have e16 : (16 : Nat) ^ 16 = 18446744073709551616 := by norm_num
  have e20 : (16 : Nat) ^ 20 = 1208925819614629174706176 := by norm_num
  have e24 : (16 : Nat) ^ 24 = 79228162514264337593543950336 := by norm_num
  have e32 : (16 : Nat) ^ 32 = 340282366920938463463374607431768211456 := by norm_num
  have e8 : (16 : Nat) ^ 8 = 4294967296 := by norm_num
  rw [e4, e12, e16, e20, e24, e8] at *
  congr 1
  omega

theorem splitSep_serialize (t : ShellToken) (hc : '/' ∉ t.channel_id) :
    splitSep '/' t.serialize = [uuidToChars t.connection_id, t.channel_id] := by
  rw [ShellToken.serialize,
    splitSep_append _ _ _ (fun hm => uuidToChars_no_sep _ _ hm rfl),
    splitSep_eq_single _ _ hc]

theorem rposition_lt_length (p : α → Bool) (l : List α) (i : Nat)
    (h : rposition p l = some i) : i < l.length := by
  induction l generalizing i with
  | nil => simp [rposition] at h
  | cons a as ih =>
    simp only [rposition] at h
    cases hr : rposition p as with
    | some j =>
      rw [hr] at h
      injection h with h
      have := ih j hr
      simp [← h, List.length_cons]
      omega
    | none =>
      rw [hr] at h
      by_cases hp : p a
      · rw [if_pos hp] at h
        injection h with h
        simp [← h]
      · rw [if_neg hp] at h
        exact absurd h (by simp)

theorem screenRows_eq_trim (rs : List (List Nat)) :
    screenRows rs = trimTrailingEmpty rs := by
  induction rs with
  | nil => rfl
  | cons r rs ih =>
    rw [screenRows, trimTrailingEmpty, rposition]
    cases hr : rposition (fun row => !row.isEmpty) rs with
    | some i =>
      rw [screenRows, hr] at ih
      have hi : i < rs.length := rposition_lt_length _ _ _ hr
      have hne : trimTrailingEmpty rs ≠ [] := by
        rw [← ih]
        intro hnil
        rw [List.take_eq_nil_iff] at hnil
        rcases hnil with h | h
        · omega
        · rw [h] at hi; simp at hi
      cases ht : trimTrailingEmpty rs with
      | nil => exact absurd ht hne
      | cons s ss =>
        rw [ht] at ih
        have ih' : List.take (i + 1) rs = s :: ss := by simpa using ih
        simp only [List.take_succ_cons, ih']
    | none =>
      have ht : trimTrailingEmpty rs = [] := by
        rw [← ih, screenRows, hr]
      rw [ht]
      by_cases hp : r.isEmpty
      · simp [hp]
      · simp [hp]

theorem trimTrailingEmpty_spec (rs : List (List Nat)) :
    trimTrailingEmpty rs ++
        List.replicate (rs.length - (trimTrailingEmpty rs).length) ([] : List Nat) = rs
      ∧ (trimTrailingEmpty rs).getLast? ≠ some ([] : List Nat) := by
  induction rs with
  | nil => exact ⟨rfl, by simp [trimTrailingEmpty]⟩
  | cons r rs ih =>
    rw [trimTrailingEmpty]
    cases ht : trimTrailingEmpty rs with
    | nil =>
      rw [ht] at ih
      simp only [List.nil_append, List.length_nil, Nat.sub_zero] at ih
      by_cases hp : r.isEmpty
      · rw [if_pos hp]
        have hr : r = [] := by simpa [List.isEmpty_iff] using hp
        refine ⟨?_, by simp⟩
        simp only [List.nil_append, List.length_nil, Nat.sub_zero, List.length_cons]
        rw [List.replicate_succ, hr, ih.1]
      · rw [if_neg hp]
        have hr : r ≠ [] := by simpa [List.isEmpty_iff] using hp
        refine ⟨?_, by simp [hr]⟩
        simpa using ih.1
    | cons s ss =>
      rw [ht] at ih
      have h1 := ih.1
      simp only [List.cons_append, List.length_cons] at h1
      refine ⟨?_, by rw [List.getLast?_cons_cons]; exact ih.2⟩
      have hlen : ss.length + 1 ≤ rs.length := by
        have hc := congrArg List.length h1
        simp only [List.length_append, List.length_cons, List.length_replicate] at hc
        omega
      simp only [List.cons_append, List.length_cons]
      have he : rs.length + 1 - (ss.length + 1 + 1) = rs.length - (ss.length + 1) := by
        omega
      rw [he, h1]

/-! ## Claim theorems -/

/-- C1: the specification demands that identity decoding return a typed
`DecodeError::Malformed` failure and never abort on malformed input; the
source's `visit_str` instead hits a failing `unwrap` (modelled as `none`)
on `"not-a-uuid/x"` (UUID parse fails), on `"no-slash-here"` (no second
segment) and on `""` (no second segment). -/
theorem visit_str_malformed_aborts :
    visit_str ("not-a-uuid/x".toList) = none ∧
    visit_str ("no-slash-here".toList) = none ∧
    visit_str ("".toList) = none := by
  refine ⟨?_, ?_, ?_⟩ <;> decide

/-- C2 counterexample: with the sender installed but the receiver dropped
(the torn-down queue after the loop exits), `write` hits the failing
`unwrap` on `send` — it does not return `Disconnected`, contradicting the
claim. -/
theorem write_torn_down_aborts :
    Shell.write (σ := Unit) ⟨⟨0, []⟩, none, some ⟨true⟩, false, (), "", 0⟩ [] =
        RustResult.panicked ∧
    Shell.write (σ := Unit) ⟨⟨0, []⟩, none, some ⟨true⟩, false, (), "", 0⟩ [] ≠
        RustResult.err Error.disconnected := by
  exact ⟨rfl, by decide⟩

/-- C2 (amended): `write` returns `Disconnected` exactly when no sender is
installed (loop never started); when the sender is installed but the queue
has been torn down (receiver dropped), `write` aborts on the failing
`unwrap` instead of returning `Disconnected`. -/
theorem write_disconnected_characterization {σ : Type} (sh : ShellModel σ)
    (data : List Nat) :
    (Shell.write sh data = RustResult.err Error.disconnected ↔ sh.sender = none) ∧
    (Shell.write sh data = RustResult.panicked ↔
      ∃ s, sh.sender = some s ∧ s.receiverDropped = true) := by
  cases hs : sh.sender with
  | none => simp [Shell.write, hs]
  | some s => cases hrd : s.receiverDropped <;> simp [Shell.write, hs, hrd]

/-- C3: starting from `status = None`, `eof = false`, the loop terminates
after `ExitStatus` then `Eof`, and after `Eof` then `ExitStatus`; a single
`ExitStatus`, a single `Eof`, or a single `Close` leaves it running; and
any message that makes the loop break leaves both the exit status and the
EOF flag observed. -/
theorem loop_termination {σ : Type} (ops : EmuOps σ) (sh : ShellModel σ)
    (code : Nat) (st : LoopState) (m : ChannelMsg) :
    (Shell.runMsgs ops sh ⟨none, false⟩
        [ChannelMsg.ExitStatus code, ChannelMsg.Eof]).2.2.2 = true ∧
    (Shell.runMsgs ops sh ⟨none, false⟩
        [ChannelMsg.Eof, ChannelMsg.ExitStatus code]).2.2.2 = true ∧
    (Shell.runMsgs ops sh ⟨none, false⟩ [ChannelMsg.ExitStatus code]).2.2.2 = false ∧
    (Shell.runMsgs ops sh ⟨none, false⟩ [ChannelMsg.Eof]).2.2.2 = false ∧
    (Shell.runMsgs ops sh ⟨none, false⟩ [ChannelMsg.Close]).2.2.2 = false ∧
    ((Shell.handleMsg ops sh st m).2.2.2 &&
      !((Shell.handleMsg ops sh st m).2.1.status.isSome &&
        (Shell.handleMsg ops sh st m).2.1.eof)) = false := by
  refine ⟨rfl, rfl, rfl, rfl, rfl, ?_⟩
  cases m with
  | Data data => simp [Shell.handleMsg]
  | ExtendedData data ext => by_cases he : ext = 1 <;> simp [Shell.handleMsg, he]
  | ExitStatus c2 => cases he : st.eof <;> simp [Shell.handleMsg, he]
  | Eof => cases hs : st.status <;> simp [Shell.handleMsg, hs]
  | Close => simp [Shell.handleMsg]
  | Other => simp [Shell.handleMsg]

/-- C5: on `Data { bytes }` the emulator is fed exactly when `has_pty`;
`rx(0, bytes)` is notified regardless; and an `info` notification happens
exactly when the feed changed the emulator title. -/
theorem data_message_handling {σ : Type} (ops : EmuOps σ) (sh : ShellModel σ)
    (st : LoopState) (data : List Nat) :
    (Shell.handleMsg ops sh st (ChannelMsg.Data data)).1.parser =
        (if sh.has_pty then ops.process sh.parser data else sh.parser) ∧
    SinkEvent.rx 0 data ∈ (Shell.handleMsg ops sh st (ChannelMsg.Data data)).2.2.1 ∧
    ((∃ i, SinkEvent.info i ∈
        (Shell.handleMsg ops sh st (ChannelMsg.Data data)).2.2.1) ↔
      ¬ ops.title (Shell.handleMsg ops sh st (ChannelMsg.Data data)).1.parser =
          ops.title sh.parser) := by
  cases hp : sh.has_pty with
  | false =>
    simp [Shell.handleMsg, Shell.process, hp]
  | true =>
    by_cases ht : ops.title (ops.process sh.parser data) = ops.title sh.parser <;>
      simp [Shell.handleMsg, Shell.process, hp, ht]

/-- C6: on `ExtendedData { bytes, ext }` only `ext == 1` is handled — the
bytes go through `Shell::process` (feeding the emulator exactly when a pty
is present) and `rx(1, bytes)` is notified; any other `ext` produces no
sink call and leaves the shell untouched; no `info` call ever results. -/
theorem extended_data_routing {σ : Type} (ops : EmuOps σ) (sh : ShellModel σ)
    (st : LoopState) (data : List Nat) (ext : Nat) :
    ((SinkEvent.rx 1 data ∈
        (Shell.handleMsg ops sh st (ChannelMsg.ExtendedData data ext)).2.2.1) ↔
      ext = 1) ∧
    (Shell.handleMsg ops sh st (ChannelMsg.ExtendedData data ext)).1 =
        (if ext = 1 then (Shell.process ops sh data).1 else sh) ∧
    ((Shell.handleMsg ops sh st (ChannelMsg.ExtendedData data ext)).2.2.1 = [] ↔
      ¬ ext = 1) ∧
    (∀ i, SinkEvent.info i ∉
        (Shell.handleMsg ops sh st (ChannelMsg.ExtendedData data ext)).2.2.1) := by
  by_cases he : ext = 1 <;> simp [Shell.handleMsg, he]

/-- C7: `screen` always succeeds — independently of the channel state — and
returns the rendered rows with every trailing fully-empty row trimmed: the
trimmed rows extended by the dropped empty rows reproduce the rendered
rows, the trimmed sequence never ends in an empty row, rows
`["abc", "", "", ""]` yield `["abc"]`, and all-empty rows yield the empty
sequence. -/
theorem screen_trimming {σ : Type} (ops : EmuOps σ) (sh : ShellModel σ)
    (cols rows : Nat) (ch : Option Channel) :
    Shell.screen ops sh cols rows =
        Except.ok
          { rows := screenRows (ops.rows_formatted sh.parser cols)
            cursor := ops.cursor_position sh.parser } ∧
    Shell.screen ops { sh with channel := ch } cols rows =
        Shell.screen ops sh cols rows ∧
    (∀ rs : List (List Nat),
      screenRows rs ++
          List.replicate (rs.length - (screenRows rs).length) ([] : List Nat) = rs ∧
      ¬ (screenRows rs).getLast? = some ([] : List Nat)) ∧
    screenRows [[97, 98, 99], [], [], []] = [[97, 98, 99]] ∧
    screenRows [[], [], []] = [] := by
  refine ⟨rfl, rfl, ?_, by decide, by decide⟩
  intro rs
  rw [screenRows_eq_trim]
  exact trimTrailingEmpty_spec rs

/-- C8: `close` is idempotent — after any `close` the channel cell is
empty, a second `close` is a state-preserving success, and `close` on a
shell with no channel succeeds without touching anything. -/
theorem close_idempotent {σ : Type} (sh : ShellModel σ) :
    (Shell.close sh).1.channel = none ∧
    Shell.close (Shell.close sh).1 = ((Shell.close sh).1, Except.ok ()) ∧
    Shell.close { sh with channel := none } =
        ({ sh with channel := none }, Except.ok ()) := by
  cases hc : sh.channel with
  | none =>
    refine ⟨?_, ?_, ?_⟩ <;> simp [Shell.close, hc]
  | some ch =>
    refine ⟨?_, ?_, ?_⟩ <;> simp [Shell.close, hc]

/-- C9 counterexample: with an unreadable file and the unknown algorithm
`"md5"`, `checksum` propagates the IO error — it does not return
`Unsupported`, contradicting the claim's unconditional second half. -/
theorem checksum_unreadable_not_unsupported :
    checksum (fun _ => []) (Except.error (Error.io "open failed")) "md5" =
        Except.error (Error.io "open failed") ∧
    checksum (fun _ => []) (Except.error (Error.io "open failed")) "md5" ≠
        Except.error Error.Unsupported := by
  refine ⟨rfl, ?_⟩
  intro h
  simp [checksum] at h

/-- C9 (amended): when the file read succeeds, algorithm `"sha256"` yields
the hex digest of the contents — every character of which is a hex digit —
and every other algorithm yields `Unsupported`; when the file read fails,
the IO error propagates regardless of the algorithm. -/
theorem checksum_characterization (core : List Nat → List Nat)
    (contents : List Nat) (algorithm : String) (e : Error) :
    checksum core (Except.ok contents) "sha256" =
        Except.ok (sha256digest core contents) ∧
    (∀ c ∈ sha256digest core contents, (hexDigitVal c).isSome = true) ∧
    (algorithm = "sha256" ∨
      checksum core (Except.ok contents) algorithm = Except.error Error.Unsupported) ∧
    checksum core (Except.error e) algorithm = Except.error e := by
  refine ⟨rfl, ?_, ?_, rfl⟩
  · intro c hc
    simp only [sha256digest, List.mem_flatten, List.mem_map] at hc
    obtain ⟨l, ⟨b, _, rfl⟩, hcl⟩ := hc
    have h16a : b / 16 % 16 < 16 := Nat.mod_lt _ (by norm_num)
    have h16b : b % 16 < 16 := Nat.mod_lt _ (by norm_num)
    have hdisj : c = hexDigitChar (b / 16 % 16) ∨ c = hexDigitChar (b % 16) := by
      simpa using hcl
    rcases hdisj with rfl | rfl
    · rw [hexDigitVal_hexDigitChar _ h16a]
      rfl
    · rw [hexDigitVal_hexDigitChar _ h16b]
      rfl
  · by_cases ha : algorithm = "sha256"
    · exact Or.inl ha
    · refine Or.inr ?_
      simp only [checksum]

/-- C10: the snapshot returned by `screen` does not depend on the `rows`
argument — the source shadows that parameter with the rendered rows and
never reads it. -/
theorem screen_rows_arg_independent {σ : Type} (ops : EmuOps σ)
    (sh : ShellModel σ) (cols r1 r2 : Nat) :
    Shell.screen ops sh cols r1 = Shell.screen ops sh cols r2 := rfl

/-- C4: decoding the canonical encoded string of an identity whose channel
id is non-empty and free of `/` reproduces the identity. -/
theorem decode_encode_roundtrip (u : Nat) (c : List Char) (hu : u < 2 ^ 128)
    (hne : c ≠ []) (hc : '/' ∉ c) :
    visit_str (ShellToken.serialize ⟨u, c⟩) = some ⟨u, c⟩ := by
  have hs := splitSep_serialize ⟨u, c⟩ hc
  simp only [visit_str, hs, List.get?, uuidFromChars_uuidToChars u hu]

/-- C4 witness: the round trip at a concrete identity. -/
theorem decode_encode_roundtrip_witness :
    (1 : Nat) < 2 ^ 128 ∧ (['x'] : List Char) ≠ [] ∧ '/' ∉ (['x'] : List Char) ∧
    visit_str (ShellToken.serialize ⟨1, ['x']⟩) = some ⟨1, ['x']⟩ :=
  ⟨by norm_num, by decide, by decide,
    decode_encode_roundtrip 1 ['x'] (by norm_num) (by decide) (by decide)⟩

end DevManager
